import Mathlib

/-!
Shallow embedding of `GessGame.py` (classes `Board`, `Piece`, `GessGame`):
cells, the 20x20 grid, piece footprints, reachability, obstruction checking,
the two-pass relocation with border cleanup, ring-based win detection and the
`make_move` orchestration, together with theorems settling the specification
claims about them.
-/

set_option maxHeartbeats 4000000

namespace Gess

/-- Cell contents of one board square: `" "`, `"B"` or `"W"` in the source. -/
inductive Cell
  | empty
  | black
  | white
deriving DecidableEq

/-- Player colours, the values of `GessGame._current_player`. -/
inductive Player
  | BLACK
  | WHITE
deriving DecidableEq

/-- Game status strings stored in `GessGame._game_state`. -/
inductive Status
  | UNFINISHED
  | BLACK_WON
  | WHITE_WON
deriving DecidableEq

/-- Board coordinates as the source uses them: `(row, col)` integer pairs. -/
abbrev Coord := Int × Int

/-- The 20x20 matrix `Board._board_area`, as a total map from indices to cells.
Only the addresses reached through `wrapIdx` are ever consulted. -/
abbrev Grid := Int → Int → Cell

/-- Python list indexing: an index `k` with `-20 ≤ k < 0` addresses entry
`k + 20` of a length-20 list.  Every board access the modelled code performs
stays inside `[-20, 19]`, where this translation is exact. -/
def wrapIdx (k : Int) : Int := if k < 0 then k + 20 else k

/-- Read `board[i][j]` with Python index semantics. -/
def bget (b : Grid) (i j : Int) : Cell := b (wrapIdx i) (wrapIdx j)

/-- Write `board[i][j] = v` with Python index semantics. -/
def bset (b : Grid) (i j : Int) (v : Cell) : Grid :=
  fun r c => if r = wrapIdx i ∧ c = wrapIdx j then v else b r c

/-- Membership in `Board._border`: the set of `(i, j)` with both components in
`0..19` and at least one component equal to `0` or `19`.  A pair outside
`0..19` (for example one with a `-1` component) is not in the Python set. -/
def inBorder (p : Coord) : Prop :=
  (0 ≤ p.1 ∧ p.1 ≤ 19 ∧ 0 ≤ p.2 ∧ p.2 ≤ 19) ∧
    (p.1 = 0 ∨ p.1 = 19 ∨ p.2 = 0 ∨ p.2 = 19)

instance (p : Coord) : Decidable (inBorder p) := by
  unfold inBorder; infer_instance

/-- The offsets `(i, j)` for `i, j ∈ range(-1, 2)` in generation order.
`Piece._area` is a Python set built from this comprehension; its iteration
order is implementation defined, and the model fixes the generation order. -/
def offsets : List Coord :=
  [(-1, -1), (-1, 0), (-1, 1), (0, -1), (0, 0), (0, 1), (1, -1), (1, 0), (1, 1)]

/-- A `Piece`: the centre handed to `Piece.__init__` together with the board it
inspects (the live game board; nothing mutates it between construction and use,
so holding the snapshot is exact). -/
structure Piece where
  center : Coord
  board : Grid

/-- Source `Piece._area`: the nine absolute coordinates of the 3x3 block around the
centre, in the modelled set order. -/
def Piece.area (p : Piece) : List Coord :=
  offsets.map (fun o => (p.center.1 + o.1, p.center.2 + o.2))

/-- Source `Piece._filled`: the offsets of the non-empty area cells, minus `(0, 0)`. -/
def Piece.filled (p : Piece) : List Coord :=
  offsets.filter (fun o =>
    decide (o ≠ (0, 0) ∧
      bget p.board (p.center.1 + o.1) (p.center.2 + o.2) ≠ Cell.empty))

/-- Source `Piece._unlimited`: true when the centre cell itself is non-empty. -/
def Piece.unlimited (p : Piece) : Bool :=
  decide (bget p.board p.center.1 p.center.2 ≠ Cell.empty)

/-- Source `Piece.get_area_contents`: the cell values across the nine area cells.
The source returns a Python set; the list of values is membership-equivalent,
which is all `make_move` consults. -/
def Piece.area_contents (p : Piece) : List Cell :=
  p.area.map (fun q => bget p.board q.1 q.2)

/-- One direction of the unlimited-mobility loop of `Piece.valid_moves`:
`while 0 < loc[0] < 20 and 0 < loc[1] < 20: loc += pos; valid.add(loc)`.
The loop is modelled with fuel; from any start it passes its guard at most
20 times whenever `pos ≠ (0, 0)` (one coordinate then moves by `pos` each
step and the guard confines it to `1..19`), so fuel 24 reproduces it exactly
in every reachable use (`pos` comes from `_filled`, which excludes `(0,0)`). -/
def ray (pos : Coord) (loc : Coord) : Nat → List Coord
  | 0 => []
  | n + 1 =>
    if 0 < loc.1 ∧ loc.1 < 20 ∧ 0 < loc.2 ∧ loc.2 < 20 then
      (loc.1 + pos.1, loc.2 + pos.2) :: ray pos (loc.1 + pos.1, loc.2 + pos.2) n
    else []

/-- Source `Piece.valid_moves`: unlimited pieces walk each filled direction until the
running location leaves `1..19`; limited pieces take one, two and three steps
in each filled direction, each candidate independently bounds-filtered.
The returned Python set is modelled as a list (membership-equivalent). -/
def Piece.valid_moves (p : Piece) : List Coord :=
  if p.unlimited then
    p.filled.flatMap (fun pos => ray pos p.center 24)
  else
    p.filled.flatMap (fun pos =>
      (if 0 < p.center.1 + pos.1 ∧ p.center.1 + pos.1 < 20 ∧
          0 < p.center.2 + pos.2 ∧ p.center.2 + pos.2 < 20 then
        [(p.center.1 + pos.1, p.center.2 + pos.2)] else []) ++
      (if 0 < p.center.1 + 2 * pos.1 ∧ p.center.1 + 2 * pos.1 < 20 ∧
          0 < p.center.2 + 2 * pos.2 ∧ p.center.2 + 2 * pos.2 < 20 then
        [(p.center.1 + 2 * pos.1, p.center.2 + 2 * pos.2)] else []) ++
      (if 0 < p.center.1 + 3 * pos.1 ∧ p.center.1 + 3 * pos.1 < 20 ∧
          0 < p.center.2 + 3 * pos.2 ∧ p.center.2 + 3 * pos.2 < 20 then
        [(p.center.1 + 3 * pos.1, p.center.2 + 3 * pos.2)] else []))

/-- The clearing pass of `Piece.move`: set every listed coordinate empty. -/
def clearCells : Grid → List Coord → Grid
  | b, [] => b
  | b, q :: rest => clearCells (bset b q.1 q.2 Cell.empty) rest

/-- Lookup in the Python dict `mov_map`.  The dict's keys (the nine displaced
coordinates) are pairwise distinct, so first-match lookup in the association
list agrees with the dict. -/
def dictGet : List (Coord × Cell) → Coord → Cell
  | [], _ => Cell.empty
  | e :: rest, k => if e.1 = k then e.2 else dictGet rest k

/-- Source `Piece.move`: build `mov_map` from every displaced coordinate to the value
at its source, clear the nine source cells, then write every displaced
coordinate from the map.  Returns the new grid and `set(mov_map.keys())`. -/
def Piece.move (p : Piece) (location : Coord) : Grid × List Coord :=
  let dispX := location.1 - p.center.1
  let dispY := location.2 - p.center.2
  let movMap := p.area.map (fun q => ((q.1 + dispX, q.2 + dispY), bget p.board q.1 q.2))
  let cleared := clearCells p.board p.area
  let placed := p.area.foldl
    (fun b q =>
      bset b (q.1 + dispX) (q.2 + dispY) (dictGet movMap (q.1 + dispX, q.2 + dispY)))
    cleared
  (placed, movMap.map (fun e => e.1))

/-- The sign assignment for the displacement in `check_obstruction`. -/
def shiftOf (d : Int) : Int := if 0 < d then 1 else if d = 0 then 0 else -1

/-- The inner while loop of `check_obstruction` for one area point `pt`, run
for scales `scale, scale+1, ...` with the given remaining iteration count:
flag `check = pt + shift * scale` when it is outside the area, non-empty and
not the point's own destination.  For the displacements `make_move` feeds in
(integer multiples of a sign vector) the Python loop exits exactly after the
scale at which `check` reaches `dest`, i.e. after `max(|dx|, |dy|)`
iterations, which is the count every caller passes. -/
def walkScales (b : Grid) (space : List Coord) (dest pt sh : Coord) :
    Nat → Nat → Bool
  | 0, _ => false
  | n + 1, scale =>
    if (pt.1 + sh.1 * scale, pt.2 + sh.2 * scale) ∉ space ∧
        bget b (pt.1 + sh.1 * scale) (pt.2 + sh.2 * scale) ≠ Cell.empty ∧
        (pt.1 + sh.1 * scale, pt.2 + sh.2 * scale) ≠ dest then
      true
    else
      walkScales b space dest pt sh n (scale + 1)

/-- The outer loop of `check_obstruction` over the area points, threading the
`(check_x, check_y)` pair exactly as the source does: it starts at `(0, 0)`,
is compared against the next point's destination before that point's walk
runs (skipping the walk entirely on equality), and is left at the walked
point's destination afterwards. -/
def obstructGo (b : Grid) (space : List Coord) (disp sh : Coord) (m : Nat) :
    List Coord → Coord → Bool
  | [], _ => false
  | pt :: rest, stale =>
    if stale = (pt.1 + disp.1, pt.2 + disp.2) then
      obstructGo b space disp sh m rest stale
    else if walkScales b space (pt.1 + disp.1, pt.2 + disp.2) pt sh m 1 then
      true
    else
      obstructGo b space disp sh m rest (pt.1 + disp.1, pt.2 + disp.2)

/-- Source `GessGame.check_obstruction` on the given board for the piece's area. -/
def check_obstruction (b : Grid) (startX startY endX endY : Int) (piece : Piece) :
    Bool :=
  let dispX := endX - startX
  let dispY := endY - startY
  obstructGo b piece.area (dispX, dispY) (shiftOf dispX, shiftOf dispY)
    (max dispX.natAbs dispY.natAbs) piece.area (0, 0)

/-- The interior indices `range(1, 19)` scanned by `check_win`. -/
def interiorIdx : List Int := (List.range 18).map (fun k => Int.ofNat k + 1)

/-- The `surround` collection of `check_win`, in source order.  Note the source
lists `board[i-1][j]` twice and never lists `board[i][j+1]`. -/
def surroundCells (b : Grid) (i j : Int) : List Cell :=
  [bget b (i + 1) j, bget b (i - 1) j, bget b (i + 1) (j + 1), bget b (i + 1) (j - 1),
   bget b (i - 1) j, bget b (i - 1) (j - 1), bget b (i - 1) (j + 1), bget b i (j - 1)]

/-- The ring flag of `check_win` for one colour: some interior cell is empty
with `surround == {c}`.  A Python set equals `{c}` exactly when every listed
element is `c` (the list is never empty), which is how it is modelled. -/
def ring_detect (b : Grid) (x : Cell) : Bool :=
  interiorIdx.any (fun i => interiorIdx.any (fun j =>
    decide (bget b i j = Cell.empty) &&
      (surroundCells b i j).all (fun c => decide (c = x))))

/-- Source `GessGame.check_win`: black's ring is tested first. -/
def check_win (b : Grid) : Status :=
  if ring_detect b Cell.black = false then Status.WHITE_WON
  else if ring_detect b Cell.white = false then Status.BLACK_WON
  else Status.UNFINISHED

/-- A decoded alphanumeric input to `make_move`: `letter` is the `_locmap`
value of the leading letter (`"a"` is 0, `"t"` is 19; other letters raise and
are outside the model), `num` the integer the remaining characters parse to. -/
structure AlphaCoord where
  letter : Fin 20
  num : Int

/-- The mutable data of a `GessGame` instance. -/
structure GState where
  game_state : Status
  current_player : Player
  board : Grid

/-- Source `GessGame.make_move`, with the state threaded explicitly: the returned
boolean is the source's return value and the returned state the object's data
after the call. -/
def make_move (g : GState) (s e : AlphaCoord) : Bool × GState :=
  if g.game_state ≠ Status.UNFINISHED then (false, g)
  else if s.letter.val = 0 ∨ s.letter.val = 19 ∨ 20 ≤ s.num ∨ s.num ≤ 0 then (false, g)
  else if e.letter.val = 0 ∨ e.letter.val = 19 ∨ 20 ≤ e.num ∨ e.num ≤ 0 then (false, g)
  else
    let startX : Int := (s.letter.val : Int)
    let startY : Int := s.num - 1
    let piece : Piece := ⟨(startX, startY), g.board⟩
    if Cell.black ∈ piece.area_contents ∧ Cell.white ∈ piece.area_contents then (false, g)
    else if g.current_player = Player.BLACK ∧ Cell.white ∈ piece.area_contents then (false, g)
    else if g.current_player = Player.WHITE ∧ Cell.black ∈ piece.area_contents then (false, g)
    else
      let endX : Int := (e.letter.val : Int)
      let endY : Int := e.num - 1
      if (endX, endY) ∉ piece.valid_moves then (false, g)
      else if check_obstruction g.board startX startY endX endY piece then (false, g)
      else
        let res := piece.move (endX, endY)
        let cleaned := res.2.foldl
          (fun b stone =>
            if inBorder stone then bset b stone.1 stone.2 Cell.empty else b)
          res.1
        let gs := check_win cleaned
        let cp :=
          if gs = Status.UNFINISHED then
            (if g.current_player = Player.BLACK then Player.WHITE else Player.BLACK)
          else g.current_player
        (true, ⟨gs, cp, cleaned⟩)

/-! ## Derived abbreviations (no new behaviour, names for subterms of the above) -/

/-- The piece `make_move` constructs from the decoded start input. -/
def pieceOf (g : GState) (s : AlphaCoord) : Piece :=
  ⟨((s.letter.val : Int), s.num - 1), g.board⟩

/-- The border-cleanup loop at the end of `make_move`, as a function. -/
def borderClean (l : List Coord) (b : Grid) : Grid :=
  l.foldl (fun b2 stone => if inBorder stone then bset b2 stone.1 stone.2 Cell.empty else b2) b

/-- The board `make_move` leaves behind on its success path. -/
def cleanedBoard (g : GState) (s e : AlphaCoord) : Grid :=
  borderClean ((pieceOf g s).move ((e.letter.val : Int), e.num - 1)).2
    ((pieceOf g s).move ((e.letter.val : Int), e.num - 1)).1

/-- The displacement `D = end - start` between the decoded anchors. -/
def dispOf (s e : AlphaCoord) : Coord :=
  (((e.letter.val : Int) - (s.letter.val : Int)), (e.num - 1) - (s.num - 1))

/-- The seven distinct neighbour offsets `check_win` actually consults: all
eight compass neighbours except `(0, 1)` (east, `board[i][j+1]` is never
listed), with `board[i-1][j]` appearing twice in the source list. -/
def nbr7 : List Coord :=
  [(1, 0), (-1, 0), (1, 1), (1, -1), (-1, -1), (-1, 1), (0, -1)]

/-- The full eight-neighbour offset set named by the specification. -/
def nbr8 : List Coord :=
  [(1, 0), (-1, 0), (0, 1), (0, -1), (1, 1), (1, -1), (-1, 1), (-1, -1)]

/-! ## Spec-side definitions, written from the specification's words for
comparison against the source-derived definitions above -/

/-- Spec-side ring predicate of claim C3: an Empty interior cell all eight of
whose compass neighbours hold stones of colour `x`. -/
def ringSpec8 (b : Grid) (x : Cell) : Prop :=
  ∃ i j : Int, 1 ≤ i ∧ i ≤ 18 ∧ 1 ≤ j ∧ j ≤ 18 ∧ bget b i j = Cell.empty ∧
    ∀ o ∈ nbr8, bget b (i + o.1) (j + o.2) = x

/-- Bounded boolean form of `ringSpec8`, used to decide it on concrete boards. -/
def ring8b (b : Grid) (x : Cell) : Bool :=
  interiorIdx.any (fun i => interiorIdx.any (fun j =>
    decide (bget b i j = Cell.empty) &&
      nbr8.all (fun o => decide (bget b (i + o.1) (j + o.2) = x))))

/-- Spec-side reachability of claim C6 for Limited mobility: one, two or three
steps along an occupied direction, kept only when both coordinates stay in
`1..18` (strictly inside the open interval `(0, N-1)` of the claim). -/
def limitedMovesSpec (p : Piece) (q : Coord) : Prop :=
  ∃ d ∈ p.filled, ∃ k ∈ ([1, 2, 3] : List Int),
    q = (p.center.1 + k * d.1, p.center.2 + k * d.2) ∧
    1 ≤ q.1 ∧ q.1 ≤ 18 ∧ 1 ≤ q.2 ∧ q.2 ≤ 18

/-- Spec-side obstruction predicate of claim C5: some footprint cell `c` meets,
at a step strictly before its own destination (`c + k·sign(D)` with
`1 ≤ k < max(|D.row|, |D.col|)`), a coordinate outside the footprint whose
cell is non-empty.  The destination step `k = max(|D.row|, |D.col|)` is
excluded, so the destination's contents never affect the verdict. -/
def obstructionSpec (b : Grid) (space : List Coord) (start stop : Coord) : Prop :=
  ∃ c ∈ space, ∃ k ∈ List.range (max (stop.1 - start.1).natAbs (stop.2 - start.2).natAbs),
    1 ≤ k ∧
    (c.1 + shiftOf (stop.1 - start.1) * k, c.2 + shiftOf (stop.2 - start.2) * k) ∉ space ∧
    bget b (c.1 + shiftOf (stop.1 - start.1) * k) (c.2 + shiftOf (stop.2 - start.2) * k) ≠
      Cell.empty

/-! ## Concrete boards, games and pieces used as test inputs -/

/-- The all-empty board. -/
def emptyB : Grid := fun _ _ => Cell.empty

/-- A fresh unfinished game on the empty board. -/
def gEmpty : GState := ⟨Status.UNFINISHED, Player.BLACK, emptyB⟩

/-- A game already decided for black. -/
def gWon : GState := ⟨Status.BLACK_WON, Player.BLACK, emptyB⟩

/-- Board for claim C2: one black stone at `(6, 1)`. -/
def bC2 : Grid := fun i j => if i = 6 ∧ j = 1 then Cell.black else Cell.empty

/-- Unfinished game on `bC2`, black to move. -/
def gC2 : GState := ⟨Status.UNFINISHED, Player.BLACK, bC2⟩

/-- The input `"f1"`: letter index 5, number 1, decoding to `(5, 0)` — its
column 0 lies on the border ring. -/
def sC2 : AlphaCoord := ⟨5, 1⟩

/-- The input `"g2"`, decoding to `(6, 1)`. -/
def eC2 : AlphaCoord := ⟨6, 2⟩

/-- Board for claim C5: black stones at `(5, 5)` and `(4, 4)`, a white stone
at `(1, 1)`. -/
def bC5 : Grid := fun i j =>
  if (i = 5 ∧ j = 5) ∨ (i = 4 ∧ j = 4) then Cell.black
  else if i = 1 ∧ j = 1 then Cell.white else Cell.empty

/-- The piece centred at `(5, 5)` on `bC5` (unlimited mobility). -/
def pC5 : Piece := ⟨(5, 5), bC5⟩

/-- Board for claim C6: one black stone at `(17, 17)`. -/
def bC6 : Grid := fun i j => if i = 17 ∧ j = 17 then Cell.black else Cell.empty

/-- The piece centred at `(16, 16)` on `bC6` (limited mobility). -/
def pC6 : Piece := ⟨(16, 16), bC6⟩

/-- Board for claim C7: black stones at `(18, 5)` and `(19, 5)`. -/
def bC7 : Grid := fun i j =>
  if (i = 18 ∧ j = 5) ∨ (i = 19 ∧ j = 5) then Cell.black else Cell.empty

/-- The piece centred at `(18, 5)` on `bC7` (unlimited mobility). -/
def pC7 : Piece := ⟨(18, 5), bC7⟩

/-- Board for claim C3: `(5, 5)` empty, its seven consulted neighbours black,
its east neighbour `(5, 6)` empty. -/
def bC3 : Grid := fun i j =>
  if (i = 4 ∧ j = 4) ∨ (i = 4 ∧ j = 5) ∨ (i = 4 ∧ j = 6) ∨ (i = 5 ∧ j = 4) ∨
      (i = 6 ∧ j = 4) ∨ (i = 6 ∧ j = 5) ∨ (i = 6 ∧ j = 6) then Cell.black
  else Cell.empty

/-- Board for claim C4: one black stone at `(6, 6)`. -/
def bC4 : Grid := fun i j => if i = 6 ∧ j = 6 then Cell.black else Cell.empty

/-- Unfinished game on `bC4`, black to move. -/
def gC4 : GState := ⟨Status.UNFINISHED, Player.BLACK, bC4⟩

/-- The input `"f6"`, decoding to the interior anchor `(5, 5)`. -/
def sC4 : AlphaCoord := ⟨5, 6⟩

/-- The input `"g7"`, decoding to the interior anchor `(6, 6)`. -/
def eC4 : AlphaCoord := ⟨6, 7⟩

/-- Board for claim C9's witness: a black ring around `(3, 3)`, a white ring
around `(3, 8)`, and a lone movable black stone at `(10, 10)`. -/
def bBoth : Grid := fun i j =>
  if (i = 4 ∧ j = 3) ∨ (i = 2 ∧ j = 3) ∨ (i = 4 ∧ j = 4) ∨ (i = 4 ∧ j = 2) ∨
      (i = 2 ∧ j = 2) ∨ (i = 2 ∧ j = 4) ∨ (i = 3 ∧ j = 2) ∨ (i = 10 ∧ j = 10) then
    Cell.black
  else if (i = 4 ∧ j = 8) ∨ (i = 2 ∧ j = 8) ∨ (i = 4 ∧ j = 9) ∨ (i = 4 ∧ j = 7) ∨
      (i = 2 ∧ j = 7) ∨ (i = 2 ∧ j = 9) ∨ (i = 3 ∧ j = 7) then
    Cell.white
  else Cell.empty

/-- Unfinished game on `bBoth`, black to move. -/
def gBoth : GState := ⟨Status.UNFINISHED, Player.BLACK, bBoth⟩

/-- The input `"j10"`, decoding to `(9, 9)`. -/
def sB9 : AlphaCoord := ⟨9, 10⟩

/-- The input `"k11"`, decoding to `(10, 10)`. -/
def eB9 : AlphaCoord := ⟨10, 11⟩

/-- The input `"a5"`, whose letter lies on the border ring. -/
def sBorder : AlphaCoord := ⟨0, 5⟩

/-- The input `"c5"`, decoding to `(2, 4)`. -/
def eInner : AlphaCoord := ⟨2, 5⟩

/-! ## General lemmas about the embedded operations -/

/-- Every call of `make_move` either fails leaving the state untouched, or
succeeds having found the decoded end anchor among the piece's valid moves,
and then returns exactly the success-branch state. -/
lemma make_move_split (g : GState) (s e : AlphaCoord) :
    ((make_move g s e).1 = false ∧ (make_move g s e).2 = g) ∨
    (((e.letter.val : Int), e.num - 1) ∈ (pieceOf g s).valid_moves ∧
      make_move g s e =
        (true,
          ⟨check_win (cleanedBoard g s e),
            (if check_win (cleanedBoard g s e) = Status.UNFINISHED then
              (if g.current_player = Player.BLACK then Player.WHITE else Player.BLACK)
            else g.current_player),
            cleanedBoard g s e⟩)) := by
  simp only [make_move]
  split
  · exact Or.inl ⟨rfl, rfl⟩
  split
  · exact Or.inl ⟨rfl, rfl⟩
  split
  · exact Or.inl ⟨rfl, rfl⟩
  split
  · exact Or.inl ⟨rfl, rfl⟩
  split
  · exact Or.inl ⟨rfl, rfl⟩
  split
  · exact Or.inl ⟨rfl, rfl⟩
  split
  · exact Or.inl ⟨rfl, rfl⟩
  rename_i hmem
  split
  · exact Or.inl ⟨rfl, rfl⟩
  exact Or.inr ⟨not_not.mp hmem, rfl⟩

/-- Every member of `ray pos loc n` is `loc + k·pos` for some `k ≥ 1`. -/
lemma mem_ray (pos : Coord) :
    ∀ (n : Nat) (loc q : Coord), q ∈ ray pos loc n →
      ∃ k : Nat, 1 ≤ k ∧ q = (loc.1 + (k : Int) * pos.1, loc.2 + (k : Int) * pos.2) := by
  intro n
  induction n with
  | zero => intro loc q hq; simp [ray] at hq
  | succ n ih =>
    intro loc q hq
    rw [ray] at hq
    split at hq
    · rcases List.mem_cons.mp hq with h | h
      · exact ⟨1, le_refl 1, by simpa using h⟩
      · rcases ih _ _ h with ⟨k, hk, hq2⟩
        refine ⟨k + 1, by omega, ?_⟩
        rw [hq2]
        simp only [Prod.mk.injEq]
        push_cast
        constructor <;> ring
    · simp at hq

/-- Members of a ray with a unit-bounded direction stay within `0..20`:
each one is one `pos`-step away from a location the loop guard confined
to `1..19`. -/
lemma mem_ray_bounds (pos : Coord) :
    ∀ (n : Nat) (loc q : Coord), q ∈ ray pos loc n →
      -1 ≤ pos.1 → pos.1 ≤ 1 → -1 ≤ pos.2 → pos.2 ≤ 1 →
      0 ≤ q.1 ∧ q.1 ≤ 20 ∧ 0 ≤ q.2 ∧ q.2 ≤ 20 := by
  intro n
  induction n with
  | zero => intro loc q hq; simp [ray] at hq
  | succ n ih =>
    intro loc q hq hp1 hp2 hp3 hp4
    rw [ray] at hq
    split at hq
    · rename_i hguard
      rcases List.mem_cons.mp hq with h | h
      · subst h
        simp only []
        omega
      · exact ih _ _ h hp1 hp2 hp3 hp4
    · simp at hq

/-- Filled offsets come from the nine-offset square. -/
lemma filled_sub_offsets (p : Piece) (pos : Coord) (h : pos ∈ p.filled) :
    pos ∈ offsets := (List.mem_filter.mp h).1

/-- The centre offset is never a filled direction. -/
lemma filled_ne_zero (p : Piece) (pos : Coord) (h : pos ∈ p.filled) :
    pos ≠ (0, 0) := by
  have h2 := (List.mem_filter.mp h).2
  simp only [decide_eq_true_eq] at h2
  exact h2.1

/-- All nine offsets have components in `-1..1`. -/
lemma offsets_bounds : ∀ o ∈ offsets, -1 ≤ o.1 ∧ o.1 ≤ 1 ∧ -1 ≤ o.2 ∧ o.2 ≤ 1 := by
  decide

/-- A piece's own centre is never among its valid moves: every candidate is
`center + k·pos` with `k ≥ 1` and `pos ≠ (0, 0)`. -/
lemma center_not_mem_valid_moves (p : Piece) : p.center ∉ p.valid_moves := by
  intro hmem
  unfold Piece.valid_moves at hmem
  split at hmem
  · rcases List.mem_flatMap.mp hmem with ⟨pos, hpos, hq⟩
    rcases mem_ray pos 24 p.center p.center hq with ⟨k, hk, heq⟩
    have hne := filled_ne_zero p pos hpos
    have h1 : p.center.1 = p.center.1 + (k : Int) * pos.1 := congrArg Prod.fst heq
    have h2 : p.center.2 = p.center.2 + (k : Int) * pos.2 := congrArg Prod.snd heq
    have hx : (k : Int) * pos.1 = 0 := by omega
    have hy : (k : Int) * pos.2 = 0 := by omega
    have hk0 : (k : Int) ≠ 0 := by positivity
    apply hne
    have := mul_eq_zero.mp hx
    have := mul_eq_zero.mp hy
    have hp1 : pos.1 = 0 := by tauto
    have hp2 : pos.2 = 0 := by tauto
    exact Prod.ext hp1 hp2
  · rcases List.mem_flatMap.mp hmem with ⟨pos, hpos, hq⟩
    have hne := filled_ne_zero p pos hpos
    rcases List.mem_append.mp hq with h | h
    · rcases List.mem_append.mp h with h | h
      all_goals (
        split at h
        · simp only [List.mem_singleton] at h
          have h1 := congrArg Prod.fst h
          have h2 := congrArg Prod.snd h
          simp only [] at h1 h2
          apply hne
          refine Prod.ext ?_ ?_ <;> omega
        · simp at h)
    · split at h
      · simp only [List.mem_singleton] at h
        have h1 := congrArg Prod.fst h
        have h2 := congrArg Prod.snd h
        simp only [] at h1 h2
        apply hne
        refine Prod.ext ?_ ?_ <;> omega
      · simp at h

/-- Membership in the interior index list is the bound `1..18`. -/
lemma mem_interiorIdx (i : Int) : i ∈ interiorIdx ↔ 1 ≤ i ∧ i ≤ 18 := by
  unfold interiorIdx
  rw [List.mem_map]
  simp only [Int.ofNat_eq_natCast]
  constructor
  · rintro ⟨k, hk, rfl⟩
    rw [List.mem_range] at hk
    omega
  · intro h
    refine ⟨(i - 1).toNat, ?_, ?_⟩
    · rw [List.mem_range]
      omega
    · omega

/-- A double `any` over the interior indices is a bounded double existential. -/
lemma any2_iff (f : Int → Int → Bool) :
    (interiorIdx.any fun i => interiorIdx.any fun j => f i j) = true ↔
      ∃ i j : Int, 1 ≤ i ∧ i ≤ 18 ∧ 1 ≤ j ∧ j ≤ 18 ∧ f i j = true := by
  simp only [List.any_eq_true, mem_interiorIdx]
  constructor
  · rintro ⟨i, ⟨hi1, hi2⟩, j, ⟨hj1, hj2⟩, hf⟩
    exact ⟨i, j, hi1, hi2, hj1, hj2, hf⟩
  · rintro ⟨i, j, hi1, hi2, hj1, hj2, hf⟩
    exact ⟨i, ⟨hi1, hi2⟩, j, ⟨hj1, hj2⟩, hf⟩

/-- Membership in a guarded singleton. -/
lemma mem_ite_singleton {c : Prop} [Decidable c] (x v : Coord) :
    x ∈ (if c then [v] else []) ↔ c ∧ x = v := by
  split <;> simp_all

/-- The bounded boolean form of the spec's eight-neighbour ring predicate
agrees with it. -/
lemma ring8b_iff (b : Grid) (x : Cell) : ring8b b x = true ↔ ringSpec8 b x := by
  unfold ring8b ringSpec8
  rw [any2_iff]
  refine exists_congr fun i => exists_congr fun j => ?_
  simp only [Bool.and_eq_true, decide_eq_true_eq, List.all_eq_true]

/-! ## Claim theorems -/

/-- C1: whenever `make_move` returns `False` — for any of its failure reasons —
the board, the game state and the current player are exactly as before the
call. -/
theorem gess_C1 (g : GState) (s e : AlphaCoord)
    (h : (make_move g s e).1 = false) : (make_move g s e).2 = g := by
  rcases make_move_split g s e with ⟨_, h2⟩ | ⟨_, h2⟩
  · exact h2
  · rw [h2] at h
    exact absurd h (by simp)

/-- C1 witness: a move starting at border letter `"a"` fails and leaves the
state untouched. -/
theorem gess_C1_witness :
    (make_move gEmpty sBorder eInner).1 = false ∧
      (make_move gEmpty sBorder eInner).2 = gEmpty :=
  ⟨by decide, gess_C1 gEmpty sBorder eInner (by decide)⟩

/-- C3 (amended): `check_win`'s ring flag for colour `x` holds exactly when
some interior empty cell has all SEVEN consulted neighbours — the eight
compass neighbours except the east one `(0, 1)` — holding stones of colour
`x`. -/
theorem gess_C3 (b : Grid) (x : Cell) :
    ring_detect b x = true ↔
      ∃ i j : Int, 1 ≤ i ∧ i ≤ 18 ∧ 1 ≤ j ∧ j ≤ 18 ∧ bget b i j = Cell.empty ∧
        ∀ o ∈ nbr7, bget b (i + o.1) (j + o.2) = x := by
  unfold ring_detect
  rw [any2_iff]
  refine exists_congr fun i => exists_congr fun j => ?_
  simp only [Bool.and_eq_true, decide_eq_true_eq, List.all_eq_true, surroundCells, nbr7]
  constructor
  · rintro ⟨hi1, hi2, hj1, hj2, hemp, hall⟩
    refine ⟨hi1, hi2, hj1, hj2, hemp, ?_⟩
    intro o ho
    fin_cases ho <;> simp_all [sub_eq_add_neg]
  · rintro ⟨hi1, hi2, hj1, hj2, hemp, hall⟩
    refine ⟨hi1, hi2, hj1, hj2, hemp, ?_⟩
    intro c hc
    fin_cases hc <;> simp_all [sub_eq_add_neg]

/-- C3 counterexample: on `bC3` the engine's ring flag for black is set even
though no interior empty cell has all eight compass neighbours black — the
cell `(5, 5)` is enclosed only on the seven consulted sides, its east
neighbour `(5, 6)` being empty.  The claimed eight-neighbour reading is
therefore false of the code. -/
theorem gess_C3_counterexample :
    ring_detect bC3 Cell.black = true ∧ ¬ ringSpec8 bC3 Cell.black := by
  constructor
  · decide
  · rw [← ring8b_iff]
    decide

/-- C6 (amended): for a Limited-mobility piece, `valid_moves` is exactly the
candidates `anchor + d`, `anchor + 2d`, `anchor + 3d` over the occupied
directions `d`, each kept exactly when both its coordinates lie strictly
inside `0 < v < 20`, i.e. in `1..19` — not `1..18` as the claim stated. -/
theorem gess_C6 (p : Piece) (h : p.unlimited = false) (q : Coord) :
    q ∈ p.valid_moves ↔
      ∃ d ∈ p.filled, ∃ k ∈ ([1, 2, 3] : List Int),
        q = (p.center.1 + k * d.1, p.center.2 + k * d.2) ∧
        0 < q.1 ∧ q.1 < 20 ∧ 0 < q.2 ∧ q.2 < 20 := by
  unfold Piece.valid_moves
  rw [h]
  simp only [Bool.false_eq_true, if_false, List.mem_flatMap, List.mem_append,
    mem_ite_singleton]
  constructor
  · rintro ⟨pos, hpos, ((⟨hg, rfl⟩ | ⟨hg, rfl⟩) | ⟨hg, rfl⟩)⟩
    · exact ⟨pos, hpos, 1, by simp, by simp, by simpa using hg⟩
    · exact ⟨pos, hpos, 2, by simp, by simp, by simpa using hg⟩
    · exact ⟨pos, hpos, 3, by simp, by simp, by simpa using hg⟩
  · rintro ⟨d, hd, k, hk, rfl, hb1, hb2, hb3, hb4⟩
    refine ⟨d, hd, ?_⟩
    dsimp only at hb1 hb2 hb3 hb4
    simp only [List.mem_cons, List.not_mem_nil, or_false] at hk
    rcases hk with rfl | rfl | rfl
    · exact Or.inl (Or.inl ⟨by omega, by simp⟩)
    · exact Or.inl (Or.inr ⟨by omega, by simp⟩)
    · exact Or.inr ⟨by omega, by simp⟩

/-- C6 witness: the limited piece `pC6` and the candidate `(19, 19)`
instantiate the amended equivalence; the candidate is a member because its
coordinates lie in `1..19`. -/
theorem gess_C6_witness :
    pC6.unlimited = false ∧
      (((19 : Int), (19 : Int)) ∈ pC6.valid_moves ↔
        ∃ d ∈ pC6.filled, ∃ k ∈ ([1, 2, 3] : List Int),
          ((19 : Int), (19 : Int)) =
            (pC6.center.1 + k * d.1, pC6.center.2 + k * d.2) ∧
          0 < (19 : Int) ∧ (19 : Int) < 20 ∧ 0 < (19 : Int) ∧ (19 : Int) < 20) :=
  ⟨by decide, gess_C6 pC6 (by decide) (19, 19)⟩

/-- C6 counterexample: the limited piece `pC6` reaches `(19, 19)`, which the
claim's `1..18` filter would have omitted, so the claimed set equation is
false as stated. -/
theorem gess_C6_counterexample :
    ((19 : Int), (19 : Int)) ∈ pC6.valid_moves ∧
      ¬ limitedMovesSpec pC6 (19, 19) := by
  constructor
  · decide
  · intro hspec
    unfold limitedMovesSpec at hspec
    revert hspec
    decide

/-- C7 (amended): every coordinate `valid_moves` returns for a piece with an
interior anchor has both components in `0..20` — one past the valid address
range: the unlimited walk can emit a coordinate equal to 20 — and for
Limited mobility every coordinate lies in `1..19` and hence is a valid grid
address. -/
theorem gess_C7 (p : Piece)
    (h1 : 1 ≤ p.center.1) (h2 : p.center.1 ≤ 18)
    (h3 : 1 ≤ p.center.2) (h4 : p.center.2 ≤ 18) :
    ∀ q ∈ p.valid_moves,
      (0 ≤ q.1 ∧ q.1 ≤ 20 ∧ 0 ≤ q.2 ∧ q.2 ≤ 20) ∧
      (p.unlimited = false → 0 < q.1 ∧ q.1 < 20 ∧ 0 < q.2 ∧ q.2 < 20) := by
  intro q hq
  unfold Piece.valid_moves at hq
  split at hq
  · rename_i hu
    rcases List.mem_flatMap.mp hq with ⟨pos, hpos, hr⟩
    have hb := offsets_bounds pos (filled_sub_offsets p pos hpos)
    have hbd := mem_ray_bounds pos 24 p.center q hr hb.1 hb.2.1 hb.2.2.1 hb.2.2.2
    refine ⟨hbd, fun hfalse => ?_⟩
    rw [hu] at hfalse
    cases hfalse
  · rcases List.mem_flatMap.mp hq with ⟨pos, hpos, hr⟩
    simp only [List.mem_append, mem_ite_singleton] at hr
    rcases hr with ((⟨hg, rfl⟩ | ⟨hg, rfl⟩) | ⟨hg, rfl⟩) <;>
      exact ⟨by dsimp only; omega, fun _ => by dsimp only; omega⟩

/-- C7 witness: the unlimited piece `pC7` at interior anchor `(18, 5)` emits
`(20, 5)`, and the amended bounds hold of it. -/
theorem gess_C7_witness :
    (0 ≤ (20 : Int) ∧ (20 : Int) ≤ 20 ∧ 0 ≤ (5 : Int) ∧ (5 : Int) ≤ 20) ∧
      (pC7.unlimited = false →
        0 < (20 : Int) ∧ (20 : Int) < 20 ∧ 0 < (5 : Int) ∧ (5 : Int) < 20) :=
  gess_C7 pC7 (by decide) (by decide) (by decide) (by decide) (20, 5) (by decide)

/-- C7 counterexample: `pC7.valid_moves` contains `(20, 5)`, whose row 20 is
out of the `0 ≤ row < 20` address range, so not every returned coordinate is
a valid grid address. -/
theorem gess_C7_counterexample :
    ¬ ∀ q ∈ pC7.valid_moves, 0 ≤ q.1 ∧ q.1 < 20 ∧ 0 ≤ q.2 ∧ q.2 < 20 := by
  decide

/-- C8: `check_win` returns `WHITE_WON` whenever black's ring flag is down
(checked first), else `BLACK_WON` whenever white's ring flag is down, else
`UNFINISHED`; in particular with neither ring present the result is
`WHITE_WON`. -/
theorem gess_C8 (b : Grid) :
    (ring_detect b Cell.black = false → check_win b = Status.WHITE_WON) ∧
    (ring_detect b Cell.black = true → ring_detect b Cell.white = false →
      check_win b = Status.BLACK_WON) ∧
    (ring_detect b Cell.black = true → ring_detect b Cell.white = true →
      check_win b = Status.UNFINISHED) ∧
    (ring_detect b Cell.black = false → ring_detect b Cell.white = false →
      check_win b = Status.WHITE_WON) := by
  refine ⟨?_, ?_, ?_, ?_⟩ <;> intros <;> simp_all [check_win]

/-- C9: a decided game rejects every move unchanged, and a successful move
flips the current player exactly when the resulting state is `UNFINISHED`. -/
theorem gess_C9 (g : GState) (s e : AlphaCoord) :
    (g.game_state ≠ Status.UNFINISHED → make_move g s e = (false, g)) ∧
    ((make_move g s e).1 = true →
      (make_move g s e).2.game_state = Status.UNFINISHED →
      (make_move g s e).2.current_player =
        (if g.current_player = Player.BLACK then Player.WHITE else Player.BLACK)) ∧
    ((make_move g s e).1 = true →
      (make_move g s e).2.game_state ≠ Status.UNFINISHED →
      (make_move g s e).2.current_player = g.current_player) := by
  refine ⟨?_, ?_, ?_⟩
  · intro hg
    simp [make_move, hg]
  · intro h1 h2
    rcases make_move_split g s e with ⟨hf, _⟩ | ⟨_, heq⟩
    · rw [hf] at h1; exact absurd h1 (by simp)
    · rw [heq] at h2 ⊢
      simp only [] at h2 ⊢
      rw [if_pos h2]
  · intro h1 h2
    rcases make_move_split g s e with ⟨hf, _⟩ | ⟨_, heq⟩
    · rw [hf] at h1; exact absurd h1 (by simp)
    · rw [heq] at h2 ⊢
      simp only [] at h2 ⊢
      rw [if_neg h2]

/-- C10: no piece's valid-move set contains its own anchor, and a proposed
move whose end input equals its start input always fails. -/
theorem gess_C10 (p : Piece) (g : GState) (s : AlphaCoord) :
    p.center ∉ p.valid_moves ∧ (make_move g s s).1 = false := by
  refine ⟨center_not_mem_valid_moves p, ?_⟩
  rcases make_move_split g s s with ⟨h, _⟩ | ⟨hmem, _⟩
  · exact h
  · exact absurd hmem (center_not_mem_valid_moves (pieceOf g s))

/-- C2: the claim fails on the code.  The input `"f1"` decodes to `(5, 0)`,
whose column 0 lies on the border ring, yet `make_move` accepts the move
`"f1" → "g2"` on the board `bC2` and returns `True`: the low-side test
`int(start_center[1:]) <= 0` rejects only numbers `≤ 0`, i.e. columns
`≤ -1`, letting column 0 through, against the source's own comment that the
starting point cannot be on the border. -/
theorem gess_C2 :
    (sC2.num - 1 = (0 : Int)) ∧ (make_move gC2 sC2 eC2).1 = true := by
  constructor
  · decide
  · decide

/-- C5: the claim fails on the code.  On `bC5` the unlimited piece at
`(5, 5)` can reach `(1, 1)`; the footprint cell `(4, 4)` passes the white
stone at `(1, 1)` strictly before its own destination `(0, 0)`, so the
spec predicate reports an obstruction, yet `check_obstruction` returns
`False`: `(check_x, check_y)` starts at `(0, 0)`, which equals the first
footprint cell's destination, so that cell's entire walk is skipped. -/
theorem gess_C5 :
    ((1 : Int), (1 : Int)) ∈ pC5.valid_moves ∧
      check_obstruction bC5 5 5 1 1 pC5 = false ∧
      obstructionSpec bC5 pC5.area (5, 5) (1, 1) := by
  refine ⟨by decide, by decide, ?_⟩
  unfold obstructionSpec
  decide

/-! ## Pointwise board lemmas and the relocation claim -/

lemma wrapIdx_nonneg {k : Int} (h : 0 ≤ k) : wrapIdx k = k := by
  unfold wrapIdx
  rw [if_neg (by omega)]

lemma bget_nn (b : Grid) {i j : Int} (hi : 0 ≤ i) (hj : 0 ≤ j) : bget b i j = b i j := by
  unfold bget
  rw [wrapIdx_nonneg hi, wrapIdx_nonneg hj]

lemma bget_bset_nn (b : Grid) {i j i2 j2 : Int} (v : Cell)
    (h1 : 0 ≤ i) (h2 : 0 ≤ j) (h3 : 0 ≤ i2) (h4 : 0 ≤ j2) :
    bget (bset b i j v) i2 j2 = if i2 = i ∧ j2 = j then v else bget b i2 j2 := by
  unfold bset
  rw [bget_nn _ h3 h4, bget_nn b h3 h4]
  simp only [wrapIdx_nonneg h1, wrapIdx_nonneg h2]

lemma bget_clearCells (l : List Coord) (b : Grid) (i j : Int)
    (hi : 0 ≤ i) (hj : 0 ≤ j) (hl : ∀ q ∈ l, 0 ≤ q.1 ∧ 0 ≤ q.2) :
    bget (clearCells b l) i j = if (i, j) ∈ l then Cell.empty else bget b i j := by
  induction l generalizing b with
  | nil => simp [clearCells]
  | cons q rest ih =>
    rw [clearCells]
    rw [ih (bset b q.1 q.2 Cell.empty) (fun r hr => hl r (List.mem_cons_of_mem _ hr))]
    have hq := hl q (List.mem_cons_self _ _)
    rw [bget_bset_nn b Cell.empty hq.1 hq.2 hi hj]
    by_cases hmem : (i, j) ∈ rest
    · simp [hmem]
    · by_cases hq2 : i = q.1 ∧ j = q.2
      · have : (i, j) = q := Prod.ext hq2.1 hq2.2
        simp [hmem, hq2, this]
      · have : ¬ (i, j) = q := by
          intro hcontra
          exact hq2 ⟨congrArg Prod.fst hcontra, congrArg Prod.snd hcontra⟩
        simp [hmem, hq2, this]


lemma dictGet_movMap (l : List Coord) (b : Grid) (dx dy : Int) (q : Coord) (hq : q ∈ l) :
    dictGet (l.map fun r => ((r.1 + dx, r.2 + dy), bget b r.1 r.2)) (q.1 + dx, q.2 + dy) =
      bget b q.1 q.2 := by
  induction l with
  | nil => cases hq
  | cons r rest ih =>
    rw [List.map_cons, dictGet]
    by_cases hr : (r.1 + dx, r.2 + dy) = (q.1 + dx, q.2 + dy)
    · have h1 : r.1 = q.1 := by
        have := congrArg Prod.fst hr
        simp only [] at this
        omega
      have h2 : r.2 = q.2 := by
        have := congrArg Prod.snd hr
        simp only [] at this
        omega
      rw [if_pos hr, h1, h2]
    · rw [if_neg hr]
      have hq2 : q ∈ rest := by
        rcases List.mem_cons.mp hq with h | h
        · exact absurd (by rw [h]) hr
        · exact h
      exact ih hq2

lemma bget_placefold (l : List Coord) (mv : List (Coord × Cell)) (dx dy : Int) (b : Grid)
    (i j : Int) (hi : 0 ≤ i) (hj : 0 ≤ j)
    (hl : ∀ q ∈ l, 0 ≤ q.1 + dx ∧ 0 ≤ q.2 + dy) :
    bget (l.foldl
        (fun bb q => bset bb (q.1 + dx) (q.2 + dy) (dictGet mv (q.1 + dx, q.2 + dy))) b)
      i j =
      if ∃ q ∈ l, q.1 + dx = i ∧ q.2 + dy = j then dictGet mv (i, j) else bget b i j := by
  induction l generalizing b with
  | nil => simp
  | cons q rest ih =>
    rw [List.foldl_cons]
    rw [ih _ (fun r hr => hl r (List.mem_cons_of_mem _ hr))]
    have hq := hl q (List.mem_cons_self _ _)
    rw [bget_bset_nn b _ hq.1 hq.2 hi hj]
    by_cases hmem : ∃ r ∈ rest, r.1 + dx = i ∧ r.2 + dy = j
    · rw [if_pos hmem, if_pos]
      rcases hmem with ⟨r, hr, h1, h2⟩
      exact ⟨r, List.mem_cons_of_mem _ hr, h1, h2⟩
    · rw [if_neg hmem]
      by_cases hq2 : i = q.1 + dx ∧ j = q.2 + dy
      · rw [if_pos hq2, if_pos ⟨q, List.mem_cons_self _ _, hq2.1.symm, hq2.2.symm⟩]
        rw [hq2.1, hq2.2]
      · rw [if_neg hq2, if_neg]
        rintro ⟨r, hr, h1, h2⟩
        rcases List.mem_cons.mp hr with h | h
        · subst h
          exact hq2 ⟨h1.symm, h2.symm⟩
        · exact hmem ⟨r, h, h1, h2⟩

lemma bget_cleanfold (l : List Coord) (b : Grid) (i j : Int)
    (hi : 0 ≤ i) (hj : 0 ≤ j) (hl : ∀ q ∈ l, 0 ≤ q.1 ∧ 0 ≤ q.2) :
    bget (borderClean l b) i j =
      if (i, j) ∈ l ∧ inBorder (i, j) then Cell.empty else bget b i j := by
  unfold borderClean
  induction l generalizing b with
  | nil => simp
  | cons q rest ih =>
    rw [List.foldl_cons]
    rw [ih _ (fun r hr => hl r (List.mem_cons_of_mem _ hr))]
    have hq := hl q (List.mem_cons_self _ _)
    by_cases hmem : (i, j) ∈ rest ∧ inBorder (i, j)
    · rw [if_pos hmem, if_pos ⟨List.mem_cons_of_mem _ hmem.1, hmem.2⟩]
    · rw [if_neg hmem]
      by_cases hqb : inBorder q
      · rw [if_pos hqb, bget_bset_nn b _ hq.1 hq.2 hi hj]
        by_cases hq2 : i = q.1 ∧ j = q.2
        · have heq : (i, j) = q := Prod.ext hq2.1 hq2.2
          rw [if_pos hq2, if_pos ⟨heq ▸ List.mem_cons_self q rest, heq ▸ hqb⟩]
        · rw [if_neg hq2, if_neg]
          rintro ⟨hin, hb2⟩
          rcases List.mem_cons.mp hin with h | h
          · exact hq2 ⟨congrArg Prod.fst h, congrArg Prod.snd h⟩
          · exact hmem ⟨h, hb2⟩
      · rw [if_neg hqb, if_neg]
        rintro ⟨hin, hb2⟩
        rcases List.mem_cons.mp hin with h | h
        · exact hqb (h ▸ hb2)
        · exact hmem ⟨h, hb2⟩


lemma move_snd (p : Piece) (loc : Coord) :
    (p.move loc).2 = p.area.map
      (fun q => (q.1 + (loc.1 - p.center.1), q.2 + (loc.2 - p.center.2))) := by
  unfold Piece.move
  simp only [List.map_map]
  rfl

lemma area_bounds (p : Piece) : ∀ q ∈ p.area,
    p.center.1 - 1 ≤ q.1 ∧ q.1 ≤ p.center.1 + 1 ∧
    p.center.2 - 1 ≤ q.2 ∧ q.2 ≤ p.center.2 + 1 := by
  intro q hq
  rcases List.mem_map.mp hq with ⟨o, ho, rfl⟩
  have hb := offsets_bounds o ho
  dsimp only
  omega

lemma bget_move (p : Piece) (loc : Coord) (i j : Int)
    (hi : 0 ≤ i) (hj : 0 ≤ j)
    (hsrc : ∀ q ∈ p.area, 0 ≤ q.1 ∧ 0 ≤ q.2)
    (hdst : ∀ q ∈ p.area, 0 ≤ q.1 + (loc.1 - p.center.1) ∧ 0 ≤ q.2 + (loc.2 - p.center.2)) :
    bget (p.move loc).1 i j =
      if ∃ q ∈ p.area, q.1 + (loc.1 - p.center.1) = i ∧ q.2 + (loc.2 - p.center.2) = j then
        bget p.board (i - (loc.1 - p.center.1)) (j - (loc.2 - p.center.2))
      else if (i, j) ∈ p.area then Cell.empty else bget p.board i j := by
  unfold Piece.move
  simp only []
  rw [bget_placefold p.area _ _ _ _ i j hi hj hdst]
  rw [bget_clearCells p.area p.board i j hi hj hsrc]
  by_cases hx : ∃ q ∈ p.area,
      q.1 + (loc.1 - p.center.1) = i ∧ q.2 + (loc.2 - p.center.2) = j
  · rw [if_pos hx, if_pos hx]
    rcases hx with ⟨q, hq, h1, h2⟩
    have hdg := dictGet_movMap p.area p.board (loc.1 - p.center.1) (loc.2 - p.center.2) q hq
    rw [h1, h2] at hdg
    rw [hdg]
    have e1 : q.1 = i - (loc.1 - p.center.1) := by omega
    have e2 : q.2 = j - (loc.2 - p.center.2) := by omega
    rw [e1, e2]
  · rw [if_neg hx, if_neg hx]


theorem gess_C4 (g : GState) (s e : AlphaCoord)
    (hmv : (make_move g s e).1 = true)
    (hs1 : 1 ≤ (s.letter.val : Int)) (hs2 : (s.letter.val : Int) ≤ 18)
    (hs3 : 1 ≤ s.num - 1) (hs4 : s.num - 1 ≤ 18)
    (he1 : 1 ≤ (e.letter.val : Int)) (he2 : (e.letter.val : Int) ≤ 18)
    (he3 : 1 ≤ e.num - 1) (he4 : e.num - 1 ≤ 18) :
    (∀ q ∈ (pieceOf g s).area,
      (¬(q.1 + (dispOf s e).1 = 0 ∨ q.1 + (dispOf s e).1 = 19 ∨
          q.2 + (dispOf s e).2 = 0 ∨ q.2 + (dispOf s e).2 = 19) →
        bget (make_move g s e).2.board (q.1 + (dispOf s e).1) (q.2 + (dispOf s e).2) =
          bget g.board q.1 q.2) ∧
      ((q.1 + (dispOf s e).1 = 0 ∨ q.1 + (dispOf s e).1 = 19 ∨
          q.2 + (dispOf s e).2 = 0 ∨ q.2 + (dispOf s e).2 = 19) →
        bget (make_move g s e).2.board (q.1 + (dispOf s e).1) (q.2 + (dispOf s e).2) =
          Cell.empty) ∧
      ((∀ r ∈ (pieceOf g s).area,
          ¬(r.1 + (dispOf s e).1 = q.1 ∧ r.2 + (dispOf s e).2 = q.2)) →
        bget (make_move g s e).2.board q.1 q.2 = Cell.empty)) ∧
    (∀ c : Coord, 0 ≤ c.1 → c.1 ≤ 19 → 0 ≤ c.2 → c.2 ≤ 19 →
      c ∉ (pieceOf g s).area →
      (∀ r ∈ (pieceOf g s).area,
        ¬(r.1 + (dispOf s e).1 = c.1 ∧ r.2 + (dispOf s e).2 = c.2)) →
      bget (make_move g s e).2.board c.1 c.2 = bget g.board c.1 c.2) := by
  rcases make_move_split g s e with ⟨hf, _⟩ | ⟨_, heq⟩
  · rw [hf] at hmv
    cases hmv
  have hboard : (make_move g s e).2.board = cleanedBoard g s e := by rw [heq]
  rw [hboard]
  simp only [dispOf]
  have hc1 : (pieceOf g s).center.1 = (s.letter.val : Int) := rfl
  have hc2 : (pieceOf g s).center.2 = s.num - 1 := rfl
  have hareaB := area_bounds (pieceOf g s)
  have hsrcnn : ∀ q ∈ (pieceOf g s).area, 0 ≤ q.1 ∧ 0 ≤ q.2 := by
    intro q hq
    have h := hareaB q hq
    omega
  have hsrcub : ∀ q ∈ (pieceOf g s).area, q.1 ≤ 19 ∧ q.2 ≤ 19 := by
    intro q hq
    have h := hareaB q hq
    omega
  have hdstnn : ∀ q ∈ (pieceOf g s).area,
      0 ≤ q.1 + (((e.letter.val : Int)) - ((s.letter.val : Int))) ∧
      0 ≤ q.2 + ((e.num - 1) - (s.num - 1)) := by
    intro q hq
    have h := hareaB q hq
    omega
  have hdstub : ∀ q ∈ (pieceOf g s).area,
      q.1 + (((e.letter.val : Int)) - ((s.letter.val : Int))) ≤ 19 ∧
      q.2 + ((e.num - 1) - (s.num - 1)) ≤ 19 := by
    intro q hq
    have h := hareaB q hq
    omega
  have hmapnn : ∀ r ∈ (pieceOf g s).area.map
      (fun q => (q.1 + (((e.letter.val : Int)) - ((s.letter.val : Int))),
                 q.2 + ((e.num - 1) - (s.num - 1)))),
      0 ≤ r.1 ∧ 0 ≤ r.2 := by
    intro r hr
    rcases List.mem_map.mp hr with ⟨t, ht, rfl⟩
    exact hdstnn t ht
  have hsnd : ((pieceOf g s).move ((e.letter.val : Int), e.num - 1)).2 =
      (pieceOf g s).area.map
        (fun q => (q.1 + (((e.letter.val : Int)) - ((s.letter.val : Int))),
                   q.2 + ((e.num - 1) - (s.num - 1)))) := by
    rw [move_snd]
    rfl
  have hmget : ∀ i j : Int, 0 ≤ i → 0 ≤ j →
      bget ((pieceOf g s).move ((e.letter.val : Int), e.num - 1)).1 i j =
        if ∃ q ∈ (pieceOf g s).area,
            q.1 + (((e.letter.val : Int)) - ((s.letter.val : Int))) = i ∧
            q.2 + ((e.num - 1) - (s.num - 1)) = j then
          bget g.board (i - (((e.letter.val : Int)) - ((s.letter.val : Int))))
            (j - ((e.num - 1) - (s.num - 1)))
        else if (i, j) ∈ (pieceOf g s).area then Cell.empty
        else bget g.board i j := by
    intro i j hi hj
    rw [bget_move (pieceOf g s) _ i j hi hj hsrcnn hdstnn]
    rfl
  have hpoint : ∀ i j : Int, 0 ≤ i → 0 ≤ j →
      bget (cleanedBoard g s e) i j =
        if ∃ r ∈ (pieceOf g s).area,
            r.1 + (((e.letter.val : Int)) - ((s.letter.val : Int))) = i ∧
            r.2 + ((e.num - 1) - (s.num - 1)) = j then
          (if inBorder (i, j) then Cell.empty
           else bget g.board (i - (((e.letter.val : Int)) - ((s.letter.val : Int))))
                  (j - ((e.num - 1) - (s.num - 1))))
        else if (i, j) ∈ (pieceOf g s).area then Cell.empty
        else bget g.board i j := by
    intro i j hi hj
    unfold cleanedBoard
    rw [hsnd]
    rw [bget_cleanfold _ _ i j hi hj hmapnn]
    rw [hmget i j hi hj]
    have hmm : ((i, j) ∈ (pieceOf g s).area.map
        (fun q => (q.1 + (((e.letter.val : Int)) - ((s.letter.val : Int))),
                   q.2 + ((e.num - 1) - (s.num - 1))))) ↔
        (∃ r ∈ (pieceOf g s).area,
          r.1 + (((e.letter.val : Int)) - ((s.letter.val : Int))) = i ∧
          r.2 + ((e.num - 1) - (s.num - 1)) = j) := by
      rw [List.mem_map]
      constructor
      · rintro ⟨t, ht, hteq⟩
        exact ⟨t, ht, congrArg Prod.fst hteq, congrArg Prod.snd hteq⟩
      · rintro ⟨t, ht, h1, h2⟩
        exact ⟨t, ht, Prod.ext h1 h2⟩
    by_cases hmem : ∃ r ∈ (pieceOf g s).area,
        r.1 + (((e.letter.val : Int)) - ((s.letter.val : Int))) = i ∧
        r.2 + ((e.num - 1) - (s.num - 1)) = j
    · rw [if_pos hmem, if_pos hmem]
      by_cases hb : inBorder (i, j)
      · rw [if_pos ⟨hmm.mpr hmem, hb⟩, if_pos hb]
      · rw [if_neg (fun hc => hb hc.2), if_neg hb]
    · rw [if_neg hmem, if_neg hmem, if_neg (fun hc => hmem (hmm.mp hc.1))]
  refine ⟨?_, ?_⟩
  · intro q hq
    have hqb := hareaB q hq
    refine ⟨?_, ?_, ?_⟩
    · intro hnb
      rw [hpoint _ _ (hdstnn q hq).1 (hdstnn q hq).2]
      rw [if_pos ⟨q, hq, rfl, rfl⟩]
      rw [if_neg (fun hb => hnb hb.2)]
      rw [show q.1 + (((e.letter.val : Int)) - ((s.letter.val : Int))) -
            (((e.letter.val : Int)) - ((s.letter.val : Int))) = q.1 from by ring]
      rw [show q.2 + ((e.num - 1) - (s.num - 1)) - ((e.num - 1) - (s.num - 1)) = q.2
            from by ring]
    · intro hdisj
      rw [hpoint _ _ (hdstnn q hq).1 (hdstnn q hq).2]
      rw [if_pos ⟨q, hq, rfl, rfl⟩]
      rw [if_pos ⟨by refine ⟨?_, ?_, ?_, ?_⟩ <;>
            first
              | exact (hdstnn q hq).1
              | exact (hdstub q hq).1
              | exact (hdstnn q hq).2
              | exact (hdstub q hq).2,
          hdisj⟩]
    · intro hnd
      rw [hpoint _ _ (hsrcnn q hq).1 (hsrcnn q hq).2]
      rw [if_neg (fun hc => by
        rcases hc with ⟨r, hr, h1, h2⟩
        exact hnd r hr ⟨h1, h2⟩)]
      rw [if_pos hq]
  · intro c hc1c hc2c hc3c hc4c hnotarea hnd
    rw [hpoint _ _ hc1c hc3c]
    rw [if_neg (fun hcc => by
      rcases hcc with ⟨r, hr, h1, h2⟩
      exact hnd r hr ⟨h1, h2⟩)]
    rw [if_neg hnotarea]


theorem gess_C4_witness :
    (make_move gC4 sC4 eC4).1 = true ∧
      bget (make_move gC4 sC4 eC4).2.board 7 7 = bget gC4.board 6 6 :=
  ⟨by decide,
    by
      have h := (gess_C4 gC4 sC4 eC4 (by decide) (by decide) (by decide) (by decide)
        (by decide) (by decide) (by decide) (by decide) (by decide)).1 (6, 6) (by decide)
      have h2 := h.1 (by decide)
      exact h2⟩

end Gess
